import Mathlib

/-
Shallow embedding of pilot/pkg/security/authz/builder/builder.go (Istio
authorization-policy builder).

The builder translates a workload's applicable authorization policies into
Envoy RBAC filter configurations.  External collaborators (the authz rule
model package, the trust-domain bundle, the policy repository and the
protobuf payload types) are opaque to this file: they are modelled as type
parameters together with an explicit environment record carrying the three
operations the builder invokes on them (construction, trust-domain
migration, generation).  Go nil pointers are modelled as Option; the Go
map from synthetic names to generated policies is modelled as an
association list with overwriting insertion, mirroring Go map assignment.
Diagnostic logging has no effect on the returned data and is elided.
-/

namespace AuthzBuilder

/-- rbacpb.RBAC_Action: the action of an Envoy RBAC ruleset
(rbacpb.RBAC_ALLOW or rbacpb.RBAC_DENY). -/
inductive RBAC_Action : Type
  | RBAC_ALLOW : RBAC_Action
  | RBAC_DENY : RBAC_Action
deriving DecidableEq, Repr

/-- v1beta1.AuthorizationPolicy: the policy spec; this core reads only its
ordered rule sequence, whose entries may be nil (Option). -/
structure AuthorizationPolicySpec (Rule : Type) : Type where
  Rules : List (Option Rule)
deriving DecidableEq, Repr

/-- model.AuthorizationPolicyConfig: a named, namespaced policy config. -/
structure AuthorizationPolicyConfig (Rule : Type) : Type where
  Namespace : String
  Name : String
  AuthorizationPolicy : AuthorizationPolicySpec Rule
deriving DecidableEq, Repr

/-- Go map assignment m[k] = v on an association list: replace the binding
of k if k is already bound, otherwise append a new binding. -/
def mapInsert {G : Type} (m : List (String × G)) (k : String) (v : G) :
    List (String × G) :=
  if m.any (fun p => p.1 == k) then
    m.map (fun p => if p.1 == k then (k, v) else p)
  else
    m ++ [(k, v)]

/-- rbacpb.RBAC: the action-scoped ruleset keyed by synthetic names.  The
map value type is a Go pointer to rbacpb.Policy, i.e. Option G for the
opaque generated-policy payload G. -/
structure RBACRules (G : Type) : Type where
  Action : RBAC_Action
  Policies : List (String × Option G)
deriving DecidableEq, Repr

/-- rbachttppb.RBAC: the HTTP RBAC filter config wrapping one ruleset. -/
structure RBACHttp (G : Type) : Type where
  Rules : RBACRules G
deriving DecidableEq, Repr

/-- rbactcppb.RBAC: the network (TCP) RBAC filter config: the same ruleset
plus a stat prefix. -/
structure RBACTcp (G : Type) : Type where
  Rules : RBACRules G
  StatPrefix : String
deriving DecidableEq, Repr

/-- httppb.HttpFilter: a named HTTP filter envelope; util.MessageToAny is
modelled as carrying the typed config itself. -/
structure HttpFilter (G : Type) : Type where
  Name : String
  TypedConfig : RBACHttp G
deriving DecidableEq, Repr

/-- tcppb.Filter: a named network filter envelope. -/
structure TcpFilter (G : Type) : Type where
  Name : String
  TypedConfig : RBACTcp G
deriving DecidableEq, Repr

/-- Modelled from the spec: authzmodel.RBACHTTPFilterName, the fixed name
constant of the HTTP RBAC filter (defined in the external authz model
package, not part of this file's source). -/
def RBACHTTPFilterName : String := "envoy.filters.http.rbac"

/-- Modelled from the spec: authzmodel.RBACTCPFilterName, the fixed name
constant of the network RBAC filter. -/
def RBACTCPFilterName : String := "envoy.filters.network.rbac"

/-- Modelled from the spec: authzmodel.RBACTCPFilterStatPrefix, the fixed
stats-prefix constant of the TCP variant. -/
def RBACTCPFilterStatPrefix : String := "tcp."

/-- The operations this core invokes on the external authz model package:
authzmodel.New, Model.MigrateTrustDomain (in place in Go, hence
state-passing here) and Model.Generate.  Generate returns a Go pointer,
i.e. Option G, where none means "no constraint to add". -/
structure AuthzModelEnv (Rule Model Bundle G : Type) : Type where
  New : Rule → Except String Model
  MigrateTrustDomain : Model → Bundle → Model
  Generate : Model → Bool → Bool → Except String (Option G)

variable {Rule Model Bundle G Labels : Type}

/-- The per-rule pipeline of the loop body of build: a nil rule, a failed
construction and a failed generation all yield none (the rule contributes
nothing); a successful generation yields its result, itself an Option
(none meaning the rule adds no constraint).  The outer Option is "was
there a successfully generated pointer"; combined below, an entry is
inserted exactly when this returns some. -/
def processRule (env : AuthzModelEnv Rule Model Bundle G) (tdBundle : Bundle)
    (forTCP forDeny : Bool) : Option Rule → Option G
  | none => none
  | some rule =>
    match env.New rule with
    | Except.error _ => none
    | Except.ok m =>
      match env.Generate (env.MigrateTrustDomain m tdBundle) forTCP forDeny with
      | Except.error _ => none
      | Except.ok generated =>
        match generated with
        | none => none
        | some g => some g

/-- The synthetic name fmt.Sprintf("ns[%s]-policy[%s]-rule[%d]", ns, nm, i). -/
def ruleName (ns nm : String) (i : Nat) : String :=
  "ns[" ++ ns ++ "]-policy[" ++ nm ++ "]-rule[" ++ Nat.repr i ++ "]"

/-- The inner loop of build: for i, rule := range policy.AuthorizationPolicy.Rules,
threading the ruleset under construction.  An entry (name, generated) is
inserted exactly when the rule is non-nil, constructs, and generates a
non-nil result. -/
def addPolicyRules (env : AuthzModelEnv Rule Model Bundle G) (tdBundle : Bundle)
    (forTCP forDeny : Bool) (ns nm : String) :
    Nat → List (Option Rule) → RBACRules G → RBACRules G
  | _, [], rules => rules
  | i, rule :: rest, rules =>
    let rules2 :=
      match processRule env tdBundle forTCP forDeny rule with
      | none => rules
      | some generated =>
        { rules with
            Policies := mapInsert rules.Policies (ruleName ns nm i) (some generated) }
    addPolicyRules env tdBundle forTCP forDeny ns nm (i + 1) rest rules2

/-- build: folds an ordered policy list into one action-scoped ruleset.
Returns none (Go nil) on an empty policy list; otherwise a ruleset whose
action is DENY when forDeny and ALLOW otherwise, starting from an empty
policies map. -/
def build (env : AuthzModelEnv Rule Model Bundle G)
    (policies : List (AuthorizationPolicyConfig Rule)) (tdBundle : Bundle)
    (forTCP forDeny : Bool) : Option (RBACHttp G) :=
  if policies.length = 0 then
    none
  else
    let init : RBACRules G :=
      { Action := if forDeny then RBAC_Action.RBAC_DENY else RBAC_Action.RBAC_ALLOW
        Policies := [] }
    let rules := policies.foldl
      (fun rules policy =>
        addPolicyRules env tdBundle forTCP forDeny policy.Namespace policy.Name 0
          policy.AuthorizationPolicy.Rules rules)
      init
    some { Rules := rules }

/-- createHTTPFilter: wraps a non-nil config in the HTTP filter envelope;
nil in, nil out. -/
def createHTTPFilter (config : Option (RBACHttp G)) : Option (HttpFilter G) :=
  match config with
  | none => none
  | some c => some { Name := RBACHTTPFilterName, TypedConfig := c }

/-- createTCPFilter: wraps a non-nil config in the TCP filter envelope,
copying the ruleset and adding the stat prefix; nil in, nil out. -/
def createTCPFilter (config : Option (RBACHttp G)) : Option (TcpFilter G) :=
  match config with
  | none => none
  | some c =>
    some { Name := RBACTCPFilterName
           TypedConfig := { Rules := c.Rules, StatPrefix := RBACTCPFilterStatPrefix } }

/-- Builder: holds the trust-domain bundle and the deny and allow policy
lists resolved at construction time. -/
structure Builder (Rule Bundle : Type) : Type where
  trustDomainBundle : Bundle
  denyPolicies : List (AuthorizationPolicyConfig Rule)
  allowPolicies : List (AuthorizationPolicyConfig Rule)
deriving DecidableEq, Repr

/-- model.AuthorizationPolicies: the policy repository, opaque except for
its ListAuthorizationPolicies(namespace, workload) selector returning the
(deny, allow) pair of applicable policy lists. -/
structure AuthorizationPolicies (Rule Labels : Type) : Type where
  ListAuthorizationPolicies :
    String → Labels → List (AuthorizationPolicyConfig Rule) ×
      List (AuthorizationPolicyConfig Rule)

/-- New: selects the applicable policies once and returns nil (none) when
both the deny list and the allow list are empty. -/
def New (trustDomainBundle : Bundle) (workload : Labels) (ns : String)
    (policies : AuthorizationPolicies Rule Labels) : Option (Builder Rule Bundle) :=
  let selected := policies.ListAuthorizationPolicies ns workload
  let denyPolicies := selected.1
  let allowPolicies := selected.2
  if denyPolicies.length = 0 && allowPolicies.length = 0 then
    none
  else
    some { trustDomainBundle := trustDomainBundle
           denyPolicies := denyPolicies
           allowPolicies := allowPolicies }

/-- BuildHTTP: aggregates the deny policies, then the allow policies, for
forTCP = false, appending the HTTP filter for each non-nil config, deny
first. -/
def BuildHTTP (env : AuthzModelEnv Rule Model Bundle G) (b : Builder Rule Bundle) :
    List (HttpFilter G) :=
  let filters : List (HttpFilter G) := []
  let filters :=
    match build env b.denyPolicies b.trustDomainBundle false true with
    | none => filters
    | some denyConfig => filters ++ (createHTTPFilter (some denyConfig)).toList
  let filters :=
    match build env b.allowPolicies b.trustDomainBundle false false with
    | none => filters
    | some allowConfig => filters ++ (createHTTPFilter (some allowConfig)).toList
  filters

/-- BuildTCP: same structure as BuildHTTP with forTCP = true, producing
TCP filter envelopes, deny first. -/
def BuildTCP (env : AuthzModelEnv Rule Model Bundle G) (b : Builder Rule Bundle) :
    List (TcpFilter G) :=
  let filters : List (TcpFilter G) := []
  let filters :=
    match build env b.denyPolicies b.trustDomainBundle true true with
    | none => filters
    | some denyConfig => filters ++ (createTCPFilter (some denyConfig)).toList
  let filters :=
    match build env b.allowPolicies b.trustDomainBundle true false with
    | none => filters
    | some allowConfig => filters ++ (createTCPFilter (some allowConfig)).toList
  filters

/-- Specification-side view of the inner loop: the ordered list of
(synthetic name, stored value) entries the rules of one policy contribute,
starting at index i.  Each entry is computed from its own (rule, index)
pair alone. -/
def rulesEntries (env : AuthzModelEnv Rule Model Bundle G) (tdBundle : Bundle)
    (forTCP forDeny : Bool) (ns nm : String) :
    Nat → List (Option Rule) → List (String × Option G)
  | _, [] => []
  | i, rule :: rest =>
    match processRule env tdBundle forTCP forDeny rule with
    | none => rulesEntries env tdBundle forTCP forDeny ns nm (i + 1) rest
    | some generated =>
      (ruleName ns nm i, some generated) ::
        rulesEntries env tdBundle forTCP forDeny ns nm (i + 1) rest

/-- The entries contributed by one policy config. -/
def policyEntries (env : AuthzModelEnv Rule Model Bundle G) (tdBundle : Bundle)
    (forTCP forDeny : Bool) (p : AuthorizationPolicyConfig Rule) :
    List (String × Option G) :=
  rulesEntries env tdBundle forTCP forDeny p.Namespace p.Name 0
    p.AuthorizationPolicy.Rules

/-- The concatenated entries of a whole build run, policy by policy. -/
def buildEntries (env : AuthzModelEnv Rule Model Bundle G) (tdBundle : Bundle)
    (forTCP forDeny : Bool) : List (AuthorizationPolicyConfig Rule) →
    List (String × Option G)
  | [] => []
  | p :: ps =>
    policyEntries env tdBundle forTCP forDeny p ++
      buildEntries env tdBundle forTCP forDeny ps

/-- Inserting a list of entries into the map, in order, with Go map
assignment semantics. -/
def insertAll {G : Type} (m : List (String × G)) (es : List (String × G)) :
    List (String × G) :=
  es.foldl (fun m e => mapInsert m e.1 e.2) m

/-! ### Structural lemmas: build as entry insertion -/

theorem insertAll_append (m : List (String × G)) (a b : List (String × G)) :
    insertAll m (a ++ b) = insertAll (insertAll m a) b := by
  simp [insertAll, List.foldl_append]

theorem addPolicyRules_eq (env : AuthzModelEnv Rule Model Bundle G)
    (tdBundle : Bundle) (forTCP forDeny : Bool) (ns nm : String) :
    ∀ (rl : List (Option Rule)) (i : Nat) (st : RBACRules G),
    addPolicyRules env tdBundle forTCP forDeny ns nm i rl st =
      { st with
          Policies :=
            insertAll st.Policies (rulesEntries env tdBundle forTCP forDeny ns nm i rl) } := by
  intro rl
  induction rl with
  | nil => intro i st; rfl
  | cons rule rest ih =>
    intro i st
    simp only [addPolicyRules, rulesEntries]
    cases h : processRule env tdBundle forTCP forDeny rule with
    | none => simp only [h, ih]
    | some g =>
      simp only [h, ih, insertAll, List.foldl_cons]

theorem foldl_addPolicyRules (env : AuthzModelEnv Rule Model Bundle G)
    (tdBundle : Bundle) (forTCP forDeny : Bool) :
    ∀ (pols : List (AuthorizationPolicyConfig Rule)) (st : RBACRules G),
    pols.foldl
      (fun rules policy =>
        addPolicyRules env tdBundle forTCP forDeny policy.Namespace policy.Name 0
          policy.AuthorizationPolicy.Rules rules)
      st =
      { st with
          Policies :=
            insertAll st.Policies (buildEntries env tdBundle forTCP forDeny pols) } := by
  intro pols
  induction pols with
  | nil => intro st; rfl
  | cons p ps ih =>
    intro st
    rw [List.foldl_cons, ih, addPolicyRules_eq]
    simp only [buildEntries, insertAll_append, policyEntries]

theorem build_eq_none_iff (env : AuthzModelEnv Rule Model Bundle G)
    (pols : List (AuthorizationPolicyConfig Rule)) (tdBundle : Bundle)
    (forTCP forDeny : Bool) :
    build env pols tdBundle forTCP forDeny = none ↔ pols = [] := by
  cases pols <;> simp [build]

theorem build_eq_some (env : AuthzModelEnv Rule Model Bundle G)
    (pols : List (AuthorizationPolicyConfig Rule)) (tdBundle : Bundle)
    (forTCP forDeny : Bool) (h : pols ≠ []) :
    build env pols tdBundle forTCP forDeny =
      some
        { Rules :=
            { Action := if forDeny then RBAC_Action.RBAC_DENY else RBAC_Action.RBAC_ALLOW
              Policies :=
                insertAll [] (buildEntries env tdBundle forTCP forDeny pols) } } := by
  have hlen : ¬ pols.length = 0 := by
    cases pols with
    | nil => exact absurd rfl h
    | cons p ps => simp
  simp only [build, hlen, if_false, foldl_addPolicyRules]

/-! ### Decimal representation: a fuel-free view of Nat.repr -/

/-- Fuel-free reformulation of the big-endian decimal digit list produced
by Nat.repr (proved equal to Nat.toDigitsCore below). -/
def digitsBE (n : Nat) : List Char :=
  if n < 10 then [Nat.digitChar n]
  else digitsBE (n / 10) ++ [Nat.digitChar (n % 10)]
termination_by n
decreasing_by
  exact Nat.div_lt_self (by omega) (by omega)

theorem toDigitsCore_append (b : Nat) :
    ∀ (f n : Nat) (ds : List Char),
    Nat.toDigitsCore b f n ds = Nat.toDigitsCore b f n [] ++ ds := by
  intro f
  induction f with
  | zero => intro n ds; simp [Nat.toDigitsCore]
  | succ f ih =>
    intro n ds
    simp only [Nat.toDigitsCore]
    by_cases h : n / b = 0
    · simp [h]
    · simp only [h, if_false]
      rw [ih (n / b) (Nat.digitChar (n % b) :: ds), ih (n / b) [Nat.digitChar (n % b)]]
      simp

theorem toDigitsCore_eq_digitsBE :
    ∀ (f n : Nat), n < f → Nat.toDigitsCore 10 f n [] = digitsBE n := by
  intro f
  induction f with
  | zero => intro n h; omega
  | succ f ih =>
    intro n h
    simp only [Nat.toDigitsCore]
    by_cases h10 : n / 10 = 0
    · have hn : n < 10 := by omega
      rw [digitsBE]
      simp [h10, hn, Nat.mod_eq_of_lt hn]
    · have hn : ¬ n < 10 := by omega
      rw [digitsBE]
      simp only [h10, if_false, hn]
      rw [toDigitsCore_append 10 f (n / 10) [Nat.digitChar (n % 10)]]
      rw [ih (n / 10) (by omega)]

theorem digitsBE_ne_nil (n : Nat) : digitsBE n ≠ [] := by
  rw [digitsBE]
  by_cases h : n < 10 <;> simp [h]

theorem digitChar_ne_rbracket : ∀ k, k < 10 → Nat.digitChar k ≠ ']' := by decide

theorem digitChar_inj_lt :
    ∀ a, a < 10 → ∀ b, b < 10 → Nat.digitChar a = Nat.digitChar b → a = b := by decide

theorem digitsBE_no_rbracket : ∀ n, ']' ∉ digitsBE n := by
  intro n
  induction n using Nat.strong_induction_on with
  | _ n ih =>
    rw [digitsBE]
    by_cases h : n < 10
    · simp only [h, if_true, List.mem_singleton]
      intro he
      exact digitChar_ne_rbracket n h he.symm
    · simp only [h, if_false, List.mem_append, List.mem_singleton]
      push_neg
      refine ⟨ih (n / 10) (Nat.div_lt_self (by omega) (by omega)), ?_⟩
      intro he
      exact digitChar_ne_rbracket (n % 10) (Nat.mod_lt n (by omega)) he.symm

theorem append_singleton_inj {xs ys : List Char} {a b : Char}
    (h : xs ++ [a] = ys ++ [b]) : xs = ys ∧ a = b := by
  have h2 := congrArg List.reverse h
  simp at h2
  exact ⟨h2.2, h2.1⟩

theorem digitsBE_lt {n : Nat} (h : n < 10) : digitsBE n = [Nat.digitChar n] := by
  rw [digitsBE]
  simp [h]

theorem digitsBE_ge {n : Nat} (h : ¬ n < 10) :
    digitsBE n = digitsBE (n / 10) ++ [Nat.digitChar (n % 10)] := by
  rw [digitsBE]
  simp [h]

theorem digitsBE_injective : ∀ m n, digitsBE m = digitsBE n → m = n := by
  intro m
  induction m using Nat.strong_induction_on with
  | _ m ih =>
    intro n h
    by_cases hm : m < 10 <;> by_cases hn : n < 10
    · rw [digitsBE_lt hm, digitsBE_lt hn] at h
      simp only [List.cons.injEq, and_true] at h
      exact digitChar_inj_lt m hm n hn h
    · exfalso
      rw [digitsBE_lt hm, digitsBE_ge hn] at h
      have h2 : ([] : List Char) ++ [Nat.digitChar m] =
          digitsBE (n / 10) ++ [Nat.digitChar (n % 10)] := by simpa using h
      exact digitsBE_ne_nil (n / 10) (append_singleton_inj h2).1.symm
    · exfalso
      rw [digitsBE_ge hm, digitsBE_lt hn] at h
      have h2 : digitsBE (m / 10) ++ [Nat.digitChar (m % 10)] =
          ([] : List Char) ++ [Nat.digitChar n] := by simpa using h
      exact digitsBE_ne_nil (m / 10) (append_singleton_inj h2).1
    · rw [digitsBE_ge hm, digitsBE_ge hn] at h
      obtain ⟨hq, hr⟩ := append_singleton_inj h
      have hq2 : m / 10 = n / 10 :=
        ih (m / 10) (Nat.div_lt_self (by omega) (by omega)) (n / 10) hq
      have hr2 : m % 10 = n % 10 :=
        digitChar_inj_lt (m % 10) (Nat.mod_lt m (by omega)) (n % 10)
          (Nat.mod_lt n (by omega)) hr
      omega

theorem natRepr_data (n : Nat) : (Nat.repr n).data = digitsBE n :=
  toDigitsCore_eq_digitsBE (n + 1) n (Nat.lt_succ_self n)

theorem natRepr_injective {m n : Nat} (h : Nat.repr m = Nat.repr n) : m = n :=
  digitsBE_injective m n (by rw [← natRepr_data, ← natRepr_data, h])

theorem natRepr_no_rbracket (n : Nat) : ']' ∉ (Nat.repr n).data := by
  rw [natRepr_data]
  exact digitsBE_no_rbracket n

/-! ### Injectivity of the synthetic name on bracket-free inputs -/

theorem string_data_inj {s t : String} (h : s.data = t.data) : s = t := by
  cases s; cases t; exact congrArg String.mk h

theorem append_rbracket_inj :
    ∀ (a c b d : List Char), ']' ∉ a → ']' ∉ c →
    a ++ ']' :: b = c ++ ']' :: d → a = c ∧ b = d := by
  intro a
  induction a with
  | nil =>
    intro c b d _ hc h
    cases c with
    | nil => simpa using h
    | cons y c2 =>
      exfalso
      simp only [List.nil_append, List.cons_append, List.cons.injEq] at h
      exact hc (h.1 ▸ List.mem_cons_self y c2)
  | cons x a2 ihA =>
    intro c b d ha hc h
    cases c with
    | nil =>
      exfalso
      simp only [List.nil_append, List.cons_append, List.cons.injEq] at h
      exact ha (h.1.symm ▸ List.mem_cons_self x a2)
    | cons y c2 =>
      simp only [List.cons_append, List.cons.injEq] at h
      have ha2 : ']' ∉ a2 := fun hx => ha (List.mem_cons_of_mem x hx)
      have hc2 : ']' ∉ c2 := fun hx => hc (List.mem_cons_of_mem y hx)
      obtain ⟨he, ht⟩ := ihA c2 b d ha2 hc2 h.2
      exact ⟨by rw [h.1, he], ht⟩

theorem ruleName_data (ns nm : String) (i : Nat) :
    (ruleName ns nm i).data =
      'n' :: 's' :: '[' ::
        (ns.data ++ ']' :: '-' :: 'p' :: 'o' :: 'l' :: 'i' :: 'c' :: 'y' :: '[' ::
          (nm.data ++ ']' :: '-' :: 'r' :: 'u' :: 'l' :: 'e' :: '[' ::
            ((Nat.repr i).data ++ [']']))) := by
  simp [ruleName, String.data_append]

theorem ruleName_inj {ns1 nm1 ns2 nm2 : String} {i1 i2 : Nat}
    (hns1 : ']' ∉ ns1.data) (hnm1 : ']' ∉ nm1.data)
    (hns2 : ']' ∉ ns2.data) (hnm2 : ']' ∉ nm2.data)
    (h : ruleName ns1 nm1 i1 = ruleName ns2 nm2 i2) :
    ns1 = ns2 ∧ nm1 = nm2 ∧ i1 = i2 := by
  have hd := congrArg String.data h
  rw [ruleName_data, ruleName_data] at hd
  simp only [List.cons.injEq, true_and] at hd
  obtain ⟨hns, hrest⟩ := append_rbracket_inj _ _ _ _ hns1 hns2 hd
  simp only [List.cons.injEq, true_and] at hrest
  obtain ⟨hnm, hrest2⟩ := append_rbracket_inj _ _ _ _ hnm1 hnm2 hrest
  simp only [List.cons.injEq, true_and] at hrest2
  obtain ⟨hrepr, _⟩ := append_rbracket_inj _ _ _ _
    (natRepr_no_rbracket i1) (natRepr_no_rbracket i2) hrest2
  exact ⟨string_data_inj hns, string_data_inj hnm,
    natRepr_injective (string_data_inj hrepr)⟩

/-! ### Entry membership and key uniqueness -/

theorem mem_rulesEntries (env : AuthzModelEnv Rule Model Bundle G) (tdBundle : Bundle)
    (forTCP forDeny : Bool) (ns nm : String) :
    ∀ (rl : List (Option Rule)) (i : Nat) (e : String × Option G),
    e ∈ rulesEntries env tdBundle forTCP forDeny ns nm i rl →
    ∃ j g orule, i ≤ j ∧ e = (ruleName ns nm j, some g) ∧
      orule ∈ rl ∧ processRule env tdBundle forTCP forDeny orule = some g := by
  intro rl
  induction rl with
  | nil => intro i e he; simp [rulesEntries] at he
  | cons rule rest ih =>
    intro i e he
    simp only [rulesEntries] at he
    cases hp : processRule env tdBundle forTCP forDeny rule with
    | none =>
      rw [hp] at he
      obtain ⟨j, g, orule, hij, hee, ho, hpr⟩ := ih (i + 1) e he
      exact ⟨j, g, orule, by omega, hee, List.mem_cons_of_mem rule ho, hpr⟩
    | some g0 =>
      rw [hp] at he
      rcases List.mem_cons.mp he with h1 | h2
      · exact ⟨i, g0, rule, Nat.le_refl i, h1, List.mem_cons_self rule rest, hp⟩
      · obtain ⟨j, g, orule, hij, hee, ho, hpr⟩ := ih (i + 1) e h2
        exact ⟨j, g, orule, by omega, hee, List.mem_cons_of_mem rule ho, hpr⟩

theorem rulesEntries_keys_nodup (env : AuthzModelEnv Rule Model Bundle G)
    (tdBundle : Bundle) (forTCP forDeny : Bool) (ns nm : String)
    (hns : ']' ∉ ns.data) (hnm : ']' ∉ nm.data) :
    ∀ (rl : List (Option Rule)) (i : Nat),
    ((rulesEntries env tdBundle forTCP forDeny ns nm i rl).map Prod.fst).Nodup := by
  intro rl
  induction rl with
  | nil => intro i; simp [rulesEntries]
  | cons rule rest ih =>
    intro i
    simp only [rulesEntries]
    cases hp : processRule env tdBundle forTCP forDeny rule with
    | none => exact ih (i + 1)
    | some g0 =>
      simp only [List.map_cons, List.nodup_cons]
      refine ⟨?_, ih (i + 1)⟩
      intro hmem
      rcases List.mem_map.mp hmem with ⟨e, he, hke⟩
      obtain ⟨j, g, orule, hij, hee, _, _⟩ :=
        mem_rulesEntries env tdBundle forTCP forDeny ns nm rest (i + 1) e he
      have hkey : ruleName ns nm j = ruleName ns nm i := by
        rw [hee] at hke
        exact hke
      have := (ruleName_inj hns hnm hns hnm hkey).2.2
      omega

theorem mem_buildEntries (env : AuthzModelEnv Rule Model Bundle G) (tdBundle : Bundle)
    (forTCP forDeny : Bool) :
    ∀ (pols : List (AuthorizationPolicyConfig Rule)) (e : String × Option G),
    e ∈ buildEntries env tdBundle forTCP forDeny pols →
    ∃ p, p ∈ pols ∧ ∃ j g orule,
      e = (ruleName p.Namespace p.Name j, some g) ∧
      orule ∈ p.AuthorizationPolicy.Rules ∧
      processRule env tdBundle forTCP forDeny orule = some g := by
  intro pols
  induction pols with
  | nil => intro e he; simp [buildEntries] at he
  | cons p ps ih =>
    intro e he
    simp only [buildEntries] at he
    rcases List.mem_append.mp he with h1 | h2
    · obtain ⟨j, g, orule, _, hee, ho, hpr⟩ :=
        mem_rulesEntries env tdBundle forTCP forDeny p.Namespace p.Name
          p.AuthorizationPolicy.Rules 0 e h1
      exact ⟨p, List.mem_cons_self p ps, j, g, orule, hee, ho, hpr⟩
    · obtain ⟨q, hq, rest⟩ := ih e h2
      exact ⟨q, List.mem_cons_of_mem p hq, rest⟩

theorem buildEntries_keys_nodup (env : AuthzModelEnv Rule Model Bundle G)
    (tdBundle : Bundle) (forTCP forDeny : Bool) :
    ∀ (pols : List (AuthorizationPolicyConfig Rule)),
    (pols.map (fun p => (p.Namespace, p.Name))).Nodup →
    (∀ p ∈ pols, ']' ∉ p.Namespace.data ∧ ']' ∉ p.Name.data) →
    ((buildEntries env tdBundle forTCP forDeny pols).map Prod.fst).Nodup := by
  intro pols
  induction pols with
  | nil => intro _ _; simp [buildEntries]
  | cons p ps ih =>
    intro hpairs hbr
    have hbrp := hbr p (List.mem_cons_self p ps)
    have hbrps : ∀ q ∈ ps, ']' ∉ q.Namespace.data ∧ ']' ∉ q.Name.data :=
      fun q hq => hbr q (List.mem_cons_of_mem p hq)
    simp only [List.map_cons, List.nodup_cons] at hpairs
    simp only [buildEntries, List.map_append]
    rw [List.nodup_append]
    refine ⟨rulesEntries_keys_nodup env tdBundle forTCP forDeny p.Namespace p.Name
      hbrp.1 hbrp.2 p.AuthorizationPolicy.Rules 0, ih hpairs.2 hbrps, ?_⟩
    intro k hk1 hk2
    rcases List.mem_map.mp hk1 with ⟨e1, he1, hke1⟩
    rcases List.mem_map.mp hk2 with ⟨e2, he2, hke2⟩
    obtain ⟨j1, g1, _, _, hee1, _, _⟩ :=
      mem_rulesEntries env tdBundle forTCP forDeny p.Namespace p.Name
        p.AuthorizationPolicy.Rules 0 e1 he1
    obtain ⟨q, hq, j2, g2, _, hee2, _, _⟩ :=
      mem_buildEntries env tdBundle forTCP forDeny ps e2 he2
    have hbrq := hbrps q hq
    have hkeys : ruleName p.Namespace p.Name j1 = ruleName q.Namespace q.Name j2 := by
      rw [hee1] at hke1
      rw [hee2] at hke2
      rw [← hke2] at hke1
      exact hke1
    obtain ⟨hnseq, hnmeq, _⟩ := ruleName_inj hbrp.1 hbrp.2 hbrq.1 hbrq.2 hkeys
    exact hpairs.1 (List.mem_map.mpr ⟨q, hq, by rw [hnseq, hnmeq]⟩)

theorem mapInsert_not_mem {m : List (String × G)} {k : String} {v : G}
    (h : k ∉ m.map Prod.fst) : mapInsert m k v = m ++ [(k, v)] := by
  have hany : m.any (fun p => p.1 == k) = false := by
    simp only [List.any_eq_false, beq_iff_eq]
    intro p hp hk
    exact h (List.mem_map.mpr ⟨p, hp, hk⟩)
  simp [mapInsert, hany]

theorem insertAll_fresh :
    ∀ (es m : List (String × G)), (es.map Prod.fst).Nodup →
    (∀ k ∈ es.map Prod.fst, k ∉ m.map Prod.fst) →
    insertAll m es = m ++ es := by
  intro es
  induction es with
  | nil => intro m _ _; simp [insertAll]
  | cons e es ih =>
    intro m hnd hfresh
    simp only [List.map_cons, List.nodup_cons] at hnd
    have h1 : insertAll m (e :: es) = insertAll (mapInsert m e.1 e.2) es := rfl
    rw [h1, mapInsert_not_mem (hfresh e.1 (by simp))]
    rw [ih (m ++ [(e.1, e.2)]) hnd.2 ?_]
    · simp
    · intro k hk
      simp only [List.map_append, List.mem_append]
      push_neg
      refine ⟨hfresh k (List.mem_cons_of_mem _ hk), ?_⟩
      simp only [List.map_cons, List.map_nil, List.mem_singleton]
      intro hke
      rw [hke] at hk
      exact hnd.1 hk

theorem mem_mapInsert {m : List (String × G)} {k : String} {v : G} :
    ∀ e, e ∈ mapInsert m k v → e ∈ m ∨ e = (k, v) := by
  intro e he
  by_cases hc : m.any (fun p => p.1 == k) = true
  · simp only [mapInsert, hc, if_true] at he
    rcases List.mem_map.mp he with ⟨p, hp, hpe⟩
    by_cases hpk : (p.1 == k) = true
    · right
      rw [← hpe]
      simp [hpk]
    · left
      rw [← hpe]
      simp only [hpk, if_false]
      exact hp
  · simp only [mapInsert, hc, if_false] at he
    rcases List.mem_append.mp he with h | h
    · exact Or.inl h
    · exact Or.inr (by simpa using h)

theorem mem_insertAll :
    ∀ (es m : List (String × G)) (e : String × G),
    e ∈ insertAll m es → e ∈ m ∨ e ∈ es := by
  intro es
  induction es with
  | nil => intro m e he; exact Or.inl he
  | cons e2 es ih =>
    intro m e he
    have h1 : insertAll m (e2 :: es) = insertAll (mapInsert m e2.1 e2.2) es := rfl
    rw [h1] at he
    rcases ih (mapInsert m e2.1 e2.2) e he with h | h
    · rcases mem_mapInsert e h with h3 | h3
      · exact Or.inl h3
      · right
        rw [h3]
        simp
    · exact Or.inr (List.mem_cons_of_mem e2 h)

/-! ### Concrete test instances -/

/-- Concrete rule-model environment for test instances: rules, models and
generated policies are all Nat; construction and migration are the
identity and generation returns the model itself. -/
def envId : AuthzModelEnv Nat Nat Unit Nat :=
  { New := fun r => Except.ok r
    MigrateTrustDomain := fun m _ => m
    Generate := fun m _ _ => Except.ok (some m) }

/-- Concrete environment in which every rule fails construction. -/
def envFail : AuthzModelEnv Nat Nat Unit Nat :=
  { New := fun _ => Except.error "invalid rule"
    MigrateTrustDomain := fun m _ => m
    Generate := fun m _ _ => Except.ok (some m) }

/-- A concrete allow policy with one valid rule. -/
def polA : AuthorizationPolicyConfig Nat :=
  { Namespace := "ns1", Name := "p1", AuthorizationPolicy := { Rules := [some 7] } }

/-- A concrete deny policy with one valid rule. -/
def polD : AuthorizationPolicyConfig Nat :=
  { Namespace := "ns2", Name := "p2", AuthorizationPolicy := { Rules := [some 3] } }

/-- A concrete builder with one deny and one allow policy. -/
def bld1 : Builder Nat Unit :=
  { trustDomainBundle := (), denyPolicies := [polD], allowPolicies := [polA] }

/-! ### Claims -/

theorem rulesEntries_eq_nil (env : AuthzModelEnv Rule Model Bundle G)
    (tdBundle : Bundle) (forTCP forDeny : Bool) (ns nm : String) :
    ∀ (rl : List (Option Rule)) (i : Nat),
    (∀ orule ∈ rl, processRule env tdBundle forTCP forDeny orule = none) →
    rulesEntries env tdBundle forTCP forDeny ns nm i rl = [] := by
  intro rl
  induction rl with
  | nil => intro i _; rfl
  | cons rule rest ih =>
    intro i h
    simp only [rulesEntries, h rule (List.mem_cons_self rule rest)]
    exact ih (i + 1) (fun orule ho => h orule (List.mem_cons_of_mem rule ho))

theorem buildEntries_eq_nil (env : AuthzModelEnv Rule Model Bundle G)
    (tdBundle : Bundle) (forTCP forDeny : Bool) :
    ∀ (pols : List (AuthorizationPolicyConfig Rule)),
    (∀ p ∈ pols, ∀ orule ∈ p.AuthorizationPolicy.Rules,
      processRule env tdBundle forTCP forDeny orule = none) →
    buildEntries env tdBundle forTCP forDeny pols = [] := by
  intro pols
  induction pols with
  | nil => intro _; rfl
  | cons p ps ih =>
    intro h
    simp only [buildEntries, List.append_eq_nil]
    refine ⟨rulesEntries_eq_nil env tdBundle forTCP forDeny p.Namespace p.Name
      p.AuthorizationPolicy.Rules 0 (h p (List.mem_cons_self p ps)), ?_⟩
    exact ih (fun q hq => h q (List.mem_cons_of_mem p hq))

/-- C1: build returns absent exactly on an empty policy sequence; on any
non-empty sequence it returns a present ruleset, and when every rule
contributes nothing (it is nil, fails construction or generation, or
generates nothing) the present ruleset's policies mapping is empty rather
than the result being absent. -/
theorem C1_build_absent_vs_empty (env : AuthzModelEnv Rule Model Bundle G)
    (pols : List (AuthorizationPolicyConfig Rule)) (tdBundle : Bundle)
    (forTCP forDeny : Bool) :
    (pols = [] → build env pols tdBundle forTCP forDeny = none) ∧
    (pols ≠ [] → ∃ r, build env pols tdBundle forTCP forDeny = some r) ∧
    (pols ≠ [] →
      (∀ p ∈ pols, ∀ orule ∈ p.AuthorizationPolicy.Rules,
        processRule env tdBundle forTCP forDeny orule = none) →
      ∃ r, build env pols tdBundle forTCP forDeny = some r ∧ r.Rules.Policies = []) := by
  refine ⟨?_, ?_, ?_⟩
  · intro h
    exact (build_eq_none_iff env pols tdBundle forTCP forDeny).mpr h
  · intro h
    exact ⟨_, build_eq_some env pols tdBundle forTCP forDeny h⟩
  · intro h hall
    refine ⟨_, build_eq_some env pols tdBundle forTCP forDeny h, ?_⟩
    simp [buildEntries_eq_nil env tdBundle forTCP forDeny pols hall, insertAll]

/-- C1 witness: an empty list yields none; a singleton list whose rule
fails construction yields a present ruleset with an empty mapping. -/
theorem C1_witness :
    build envFail ([] : List (AuthorizationPolicyConfig Nat)) () false false = none ∧
    (∃ r, build envFail [polA] () false false = some r ∧ r.Rules.Policies = []) :=
  ⟨(C1_build_absent_vs_empty envFail [] () false false).1 rfl,
   (C1_build_absent_vs_empty envFail [polA] () false false).2.2 (by decide) (by decide)⟩

/-- C2: BuildHTTP and BuildTCP return one filter per non-absent ruleset
among the deny and allow aggregations (so zero, one, or two filters), and
whenever both aggregations are present the deny-derived filter strictly
precedes the allow-derived filter. -/
theorem C2_filter_count_and_order (env : AuthzModelEnv Rule Model Bundle G)
    (b : Builder Rule Bundle) :
    ((BuildHTTP env b).length =
      (if (build env b.denyPolicies b.trustDomainBundle false true).isSome then 1 else 0) +
      (if (build env b.allowPolicies b.trustDomainBundle false false).isSome then 1 else 0)) ∧
    ((BuildTCP env b).length =
      (if (build env b.denyPolicies b.trustDomainBundle true true).isSome then 1 else 0) +
      (if (build env b.allowPolicies b.trustDomainBundle true false).isSome then 1 else 0)) ∧
    (∀ dc ac, build env b.denyPolicies b.trustDomainBundle false true = some dc →
      build env b.allowPolicies b.trustDomainBundle false false = some ac →
      BuildHTTP env b =
        [{ Name := RBACHTTPFilterName, TypedConfig := dc },
         { Name := RBACHTTPFilterName, TypedConfig := ac }]) ∧
    (∀ dc ac, build env b.denyPolicies b.trustDomainBundle true true = some dc →
      build env b.allowPolicies b.trustDomainBundle true false = some ac →
      BuildTCP env b =
        [{ Name := RBACTCPFilterName,
           TypedConfig := { Rules := dc.Rules, StatPrefix := RBACTCPFilterStatPrefix } },
         { Name := RBACTCPFilterName,
           TypedConfig := { Rules := ac.Rules, StatPrefix := RBACTCPFilterStatPrefix } }]) := by
  refine ⟨?_, ?_, ?_, ?_⟩
  · unfold BuildHTTP
    cases build env b.denyPolicies b.trustDomainBundle false true <;>
      cases build env b.allowPolicies b.trustDomainBundle false false <;>
        simp [createHTTPFilter]
  · unfold BuildTCP
    cases build env b.denyPolicies b.trustDomainBundle true true <;>
      cases build env b.allowPolicies b.trustDomainBundle true false <;>
        simp [createTCPFilter]
  · intro dc ac hdc hac
    unfold BuildHTTP
    rw [hdc, hac]
    simp [createHTTPFilter]
  · intro dc ac hdc hac
    unfold BuildTCP
    rw [hdc, hac]
    simp [createTCPFilter]

/-- The deny ruleset the concrete builder bld1 produces. -/
def rsD : RBACRules Nat :=
  { Action := RBAC_Action.RBAC_DENY, Policies := [("ns[ns2]-policy[p2]-rule[0]", some 3)] }

/-- The allow ruleset the concrete builder bld1 produces. -/
def rsA : RBACRules Nat :=
  { Action := RBAC_Action.RBAC_ALLOW, Policies := [("ns[ns1]-policy[p1]-rule[0]", some 7)] }

/-- C2 witness: with one deny and one allow policy, BuildHTTP returns the
two-element list with the deny-derived filter first. -/
theorem C2_witness :
    BuildHTTP envId bld1 =
      [{ Name := RBACHTTPFilterName, TypedConfig := { Rules := rsD } },
       { Name := RBACHTTPFilterName, TypedConfig := { Rules := rsA } }] :=
  (C2_filter_count_and_order envId bld1).2.2.1 { Rules := rsD } { Rules := rsA }
    (by decide) (by decide)

/-- C3: New returns absent exactly when the policy selector yields an
empty deny list and an empty allow list; otherwise it returns a present
Builder holding the trust-domain bundle and both selected lists. -/
theorem C3_new_absent_iff_no_policy (tdBundle : Bundle) (workload : Labels)
    (ns : String) (policies : AuthorizationPolicies Rule Labels) :
    (New tdBundle workload ns policies = none ↔
      (policies.ListAuthorizationPolicies ns workload).1 = [] ∧
      (policies.ListAuthorizationPolicies ns workload).2 = []) ∧
    (∀ deny allow, policies.ListAuthorizationPolicies ns workload = (deny, allow) →
      deny ≠ [] ∨ allow ≠ [] →
      New tdBundle workload ns policies =
        some { trustDomainBundle := tdBundle, denyPolicies := deny,
               allowPolicies := allow }) := by
  constructor
  · unfold New
    cases hsel : policies.ListAuthorizationPolicies ns workload with
    | mk deny allow =>
      cases deny <;> cases allow <;> simp
  · intro deny allow hsel hne
    unfold New
    rw [hsel]
    have hnz : ¬ (deny.length = 0 && allow.length = 0) = true := by
      rcases hne with h | h
      · cases deny with
        | nil => exact absurd rfl h
        | cons x xs => simp
      · cases allow with
        | nil => exact absurd rfl h
        | cons x xs => simp
    simp [hnz]

/-- C3 witness: a selector yielding two empty lists gives absent; one
yielding a non-empty allow list gives the expected present Builder. -/
theorem C3_witness :
    New () () "ns1" { ListAuthorizationPolicies := fun _ _ => ([], []) } =
      (none : Option (Builder Nat Unit)) ∧
    New () () "ns1" { ListAuthorizationPolicies := fun _ _ => ([polD], [polA]) } =
      some { trustDomainBundle := (), denyPolicies := [polD], allowPolicies := [polA] } :=
  ⟨(C3_new_absent_iff_no_policy () () "ns1"
      { ListAuthorizationPolicies := fun _ _ => ([], []) }).1.mpr ⟨rfl, rfl⟩,
   (C3_new_absent_iff_no_policy () () "ns1"
      { ListAuthorizationPolicies := fun _ _ => ([polD], [polA]) }).2
      [polD] [polA] rfl (Or.inl (by decide))⟩

/-- A policy whose namespace contains the name-format delimiter. -/
def polX : AuthorizationPolicyConfig Nat :=
  { Namespace := "a]-policy[b", Name := "c", AuthorizationPolicy := { Rules := [some 1] } }

/-- A distinct policy whose name makes its synthetic rule name collide
with that of polX. -/
def polY : AuthorizationPolicyConfig Nat :=
  { Namespace := "a", Name := "b]-policy[c", AuthorizationPolicy := { Rules := [some 2] } }

/-- The single-entry ruleset the colliding run produces: polY's value
survives, polX's is gone. -/
def rsXY : RBACRules Nat :=
  { Action := RBAC_Action.RBAC_ALLOW, Policies := [("ns[a]-policy[b]-policy[c]-rule[0]", some 2)] }

/-- C4 counterexample: the (namespace, name) pairs of polX and polY are
distinct (the uniqueness precondition holds), yet the synthetic names of
the two distinct (policy, ruleIndex) pairs coincide, and in the build run
the second insertion overwrites the first: the resulting mapping holds a
single entry carrying polY's generated value, where polX's value was
inserted first. -/
theorem C4_counterexample :
    ([polX, polY].map (fun p => (p.Namespace, p.Name))).Nodup ∧
    ruleName polX.Namespace polX.Name 0 = ruleName polY.Namespace polY.Name 0 ∧
    build envId [polX, polY] () false false =
      some { Rules := rsXY } ∧
    rsXY.Policies = [("ns[a]-policy[b]-policy[c]-rule[0]", some 2)] := by
  refine ⟨by decide, by decide, by decide, by decide⟩

/-- C4 (amended): under the stated uniqueness precondition strengthened by
the requirement that no namespace or name contains the character ']'
(true of Kubernetes namespaces and resource names), the synthetic names of
distinct (policy, ruleIndex) pairs are pairwise distinct, the keys of a
build run are pairwise distinct, and run insertion is append-only, i.e.
never overwrites a previously inserted entry. -/
theorem C4_amended_no_overwrite (env : AuthzModelEnv Rule Model Bundle G)
    (pols : List (AuthorizationPolicyConfig Rule)) (tdBundle : Bundle)
    (forTCP forDeny : Bool)
    (hpairs : (pols.map (fun p => (p.Namespace, p.Name))).Nodup)
    (hbr : ∀ p ∈ pols, ']' ∉ p.Namespace.data ∧ ']' ∉ p.Name.data) :
    (∀ p ∈ pols, ∀ q ∈ pols, ∀ i j : Nat, p ≠ q ∨ i ≠ j →
      ruleName p.Namespace p.Name i ≠ ruleName q.Namespace q.Name j) ∧
    ((buildEntries env tdBundle forTCP forDeny pols).map Prod.fst).Nodup ∧
    (pols ≠ [] → ∃ r, build env pols tdBundle forTCP forDeny = some r ∧
      r.Rules.Policies = buildEntries env tdBundle forTCP forDeny pols) := by
  have hnodup := buildEntries_keys_nodup env tdBundle forTCP forDeny pols hpairs hbr
  refine ⟨?_, hnodup, ?_⟩
  · intro p hp q hq i j hne heq
    obtain ⟨hns, hnm, hij⟩ :=
      ruleName_inj (hbr p hp).1 (hbr p hp).2 (hbr q hq).1 (hbr q hq).2 heq
    rcases hne with h | h
    · exact h (List.inj_on_of_nodup_map hpairs hp hq (by rw [hns, hnm]))
    · exact h hij
  · intro h
    refine ⟨_, build_eq_some env pols tdBundle forTCP forDeny h, ?_⟩
    have := insertAll_fresh (buildEntries env tdBundle forTCP forDeny pols) [] hnodup
      (by intro k _ hk; simp at hk)
    simpa using this

/-- C4 witness for the amended claim: two bracket-free policies with
distinct (namespace, name) pairs produce an append-only two-entry map. -/
theorem C4_witness :
    ∃ r, build envId [polD, polA] () false false = some r ∧
      r.Rules.Policies = buildEntries envId () false false [polD, polA] :=
  (C4_amended_no_overwrite envId [polD, polA] () false false
    (by decide) (by decide)).2.2 (by decide)

/-- C5: per-rule failures are isolated.  Each (policy, ruleIndex) pair's
contribution is a function of that pair alone (rulesEntries computes it
pointwise and a failing rule contributes nothing), so a failure affects no
sibling rule or policy, and build always completes with a result: none
exactly on empty input, otherwise the ruleset obtained by inserting the
independently computed contributions in order.  BuildHTTP and BuildTCP
always return a filter list (of at most two filters); no error is
propagated, as the return types carry none. -/
theorem C5_failure_isolation (env : AuthzModelEnv Rule Model Bundle G)
    (pols : List (AuthorizationPolicyConfig Rule)) (tdBundle : Bundle)
    (forTCP forDeny : Bool) (b : Builder Rule Bundle) :
    (pols ≠ [] → ∃ r, build env pols tdBundle forTCP forDeny = some r ∧
      r.Rules.Policies = insertAll [] (buildEntries env tdBundle forTCP forDeny pols)) ∧
    (pols = [] → build env pols tdBundle forTCP forDeny = none) ∧
    (BuildHTTP env b).length ≤ 2 ∧ (BuildTCP env b).length ≤ 2 := by
  refine ⟨?_, ?_, ?_, ?_⟩
  · intro h
    exact ⟨_, build_eq_some env pols tdBundle forTCP forDeny h, rfl⟩
  · intro h
    exact (build_eq_none_iff env pols tdBundle forTCP forDeny).mpr h
  · unfold BuildHTTP
    cases build env b.denyPolicies b.trustDomainBundle false true <;>
      cases build env b.allowPolicies b.trustDomainBundle false false <;>
        simp [createHTTPFilter]
  · unfold BuildTCP
    cases build env b.denyPolicies b.trustDomainBundle true true <;>
      cases build env b.allowPolicies b.trustDomainBundle true false <;>
        simp [createTCPFilter]

/-- A policy whose only rule is nil. -/
def polF : AuthorizationPolicyConfig Nat :=
  { Namespace := "nsf", Name := "pf", AuthorizationPolicy := { Rules := [none] } }

/-- C5 witness: a run mixing a nil-rule policy and a valid policy still
completes and yields exactly the independently computed entries. -/
theorem C5_witness :
    ∃ r, build envId [polF, polA] () false false = some r ∧
      r.Rules.Policies = insertAll [] (buildEntries envId () false false [polF, polA]) :=
  (C5_failure_isolation envId [polF, polA] () false false bld1).1 (by decide)

/-- C6: the synthetic name for rule index i of policy (ns, nm) is exactly
"ns[" ++ ns ++ "]-policy[" ++ nm ++ "]-rule[" ++ i ++ "]", and for a
single allow policy p1 in namespace ns1 whose one rule generates
successfully for forTCP = false, forDeny = false, BuildHTTP returns
exactly one filter whose mapping is the single binding of
"ns[ns1]-policy[p1]-rule[0]" to the generated policy. -/
theorem C6_synthetic_name_scenarioA (env : AuthzModelEnv Rule Model Bundle G)
    (tdBundle : Bundle) (r : Rule) (g : G)
    (hgen : processRule env tdBundle false false (some r) = some g) :
    (∀ ns nm i, ruleName ns nm i =
      "ns[" ++ ns ++ "]-policy[" ++ nm ++ "]-rule[" ++ Nat.repr i ++ "]") ∧
    BuildHTTP env ⟨tdBundle, [], [⟨"ns1", "p1", ⟨[some r]⟩⟩]⟩ =
      [⟨RBACHTTPFilterName,
        ⟨⟨RBAC_Action.RBAC_ALLOW, [("ns[ns1]-policy[p1]-rule[0]", some g)]⟩⟩⟩] := by
  constructor
  · intro ns nm i
    rfl
  · have hne : ([⟨"ns1", "p1", ⟨[some r]⟩⟩] :
        List (AuthorizationPolicyConfig Rule)) ≠ [] := by simp
    have ha := build_eq_some env [⟨"ns1", "p1", ⟨[some r]⟩⟩] tdBundle false false hne
    have he : insertAll []
        (buildEntries env tdBundle false false [⟨"ns1", "p1", ⟨[some r]⟩⟩]) =
        [(ruleName "ns1" "p1" 0, some g)] := by
      simp [buildEntries, policyEntries, rulesEntries, hgen, insertAll, mapInsert]
    rw [he] at ha
    have hd : build env ([] : List (AuthorizationPolicyConfig Rule)) tdBundle
        false true = none := rfl
    simp only [BuildHTTP]
    rw [hd, ha]
    simp only [createHTTPFilter, Option.toList, List.nil_append]
    rfl

/-- C6 witness: the concrete scenario with rule 7 under the identity
environment. -/
theorem C6_witness :
    BuildHTTP envId ⟨(), [], [⟨"ns1", "p1", ⟨[some 7]⟩⟩]⟩ =
      [⟨RBACHTTPFilterName,
        ⟨⟨RBAC_Action.RBAC_ALLOW, [("ns[ns1]-policy[p1]-rule[0]", some 7)]⟩⟩⟩] :=
  (C6_synthetic_name_scenarioA envId () 7 7 (by decide)).2

/-- C7: a nil rule entry is skipped without aborting the policy or the
run, and the positional index is preserved: a policy whose rule sequence
is [nil, validRule] yields a mapping with exactly one entry, keyed with
index 1, not 0. -/
theorem C7_nil_rule_keeps_index (env : AuthzModelEnv Rule Model Bundle G)
    (tdBundle : Bundle) (forTCP forDeny : Bool) (ns nm : String) (r : Rule) (g : G)
    (hgen : processRule env tdBundle forTCP forDeny (some r) = some g) :
    ∃ rs, build env [⟨ns, nm, ⟨[none, some r]⟩⟩] tdBundle forTCP forDeny = some rs ∧
      rs.Rules.Policies = [(ruleName ns nm 1, some g)] := by
  have hne : ([⟨ns, nm, ⟨[none, some r]⟩⟩] :
      List (AuthorizationPolicyConfig Rule)) ≠ [] := by simp
  refine ⟨_, build_eq_some env [⟨ns, nm, ⟨[none, some r]⟩⟩] tdBundle forTCP forDeny hne, ?_⟩
  have h0 : processRule env tdBundle forTCP forDeny none = (none : Option G) := rfl
  simp [buildEntries, policyEntries, rulesEntries, h0, hgen, insertAll, mapInsert]

/-- C7 witness: the concrete [nil, valid] policy under the identity
environment; the surviving key carries index 1. -/
theorem C7_witness :
    ∃ rs, build envId [⟨"ns9", "p9", ⟨[none, some 5]⟩⟩] () false false = some rs ∧
      rs.Rules.Policies = [(ruleName "ns9" "p9" 1, some 5)] :=
  C7_nil_rule_keeps_index envId () false false "ns9" "p9" 5 5 (by decide)

/-- C8: for every non-empty policy list, build returns a present ruleset
whose action is DENY exactly when forDeny and ALLOW otherwise; the action
is independent of forTCP, of the environment and of the rules (all
universally quantified), and the mapping is accumulated from the empty
initial mapping. -/
theorem C8_action_from_forDeny (env : AuthzModelEnv Rule Model Bundle G)
    (pols : List (AuthorizationPolicyConfig Rule)) (tdBundle : Bundle)
    (forTCP forDeny : Bool) (h : pols ≠ []) :
    ∃ r, build env pols tdBundle forTCP forDeny = some r ∧
      r.Rules.Action =
        (if forDeny then RBAC_Action.RBAC_DENY else RBAC_Action.RBAC_ALLOW) ∧
      r.Rules.Policies = insertAll [] (buildEntries env tdBundle forTCP forDeny pols) :=
  ⟨_, build_eq_some env pols tdBundle forTCP forDeny h, rfl, rfl⟩

/-- C8 witness: a deny run over a TCP target still keyed by forDeny. -/
theorem C8_witness :
    ∃ r, build envId [polA] () true true = some r ∧
      r.Rules.Action = (if true then RBAC_Action.RBAC_DENY else RBAC_Action.RBAC_ALLOW) ∧
      r.Rules.Policies = insertAll [] (buildEntries envId () true true [polA]) :=
  C8_action_from_forDeny envId [polA] () true true (by decide)

/-- C9: build is deterministic: two invocations on identical inputs give
identical results - both absent together, and when present, identical
action, identical key lists and identical generated content per key. -/
theorem C9_deterministic (env : AuthzModelEnv Rule Model Bundle G)
    (pols : List (AuthorizationPolicyConfig Rule)) (tdBundle : Bundle)
    (forTCP forDeny : Bool) (r1 r2 : Option (RBACHttp G))
    (h1 : build env pols tdBundle forTCP forDeny = r1)
    (h2 : build env pols tdBundle forTCP forDeny = r2) :
    r1 = r2 ∧ (r1 = none ↔ r2 = none) ∧
    ∀ x y, r1 = some x → r2 = some y →
      x.Rules.Action = y.Rules.Action ∧
      x.Rules.Policies.map Prod.fst = y.Rules.Policies.map Prod.fst ∧
      x.Rules.Policies = y.Rules.Policies := by
  subst h1
  subst h2
  refine ⟨rfl, Iff.rfl, ?_⟩
  intro x y hx hy
  rw [hx] at hy
  injection hy with hxy
  subst hxy
  exact ⟨rfl, rfl, rfl⟩

/-- C9 witness: the two runs on the concrete allow policy agree. -/
theorem C9_witness :
    rsA.Action = rsA.Action ∧ rsA.Policies.map Prod.fst = rsA.Policies.map Prod.fst ∧
      rsA.Policies = rsA.Policies :=
  (C9_deterministic envId [polA] () false false (some ⟨rsA⟩) (some ⟨rsA⟩)
    (by decide) (by decide)).2.2 ⟨rsA⟩ ⟨rsA⟩ rfl rfl

/-- C10: every value stored in the policies mapping of a returned ruleset
is a present (non-nil) generated policy: each entry's value is the some
result of a successful, non-nil generation for some rule of some input
policy; a nil generation result never appears as a mapping value. -/
theorem C10_values_generated (env : AuthzModelEnv Rule Model Bundle G)
    (pols : List (AuthorizationPolicyConfig Rule)) (tdBundle : Bundle)
    (forTCP forDeny : Bool) (r : RBACHttp G)
    (h : build env pols tdBundle forTCP forDeny = some r) :
    ∀ e ∈ r.Rules.Policies, e.2 ≠ none ∧
      ∃ g p orule, p ∈ pols ∧ orule ∈ p.AuthorizationPolicy.Rules ∧
        processRule env tdBundle forTCP forDeny orule = some g ∧ e.2 = some g := by
  have hne : pols ≠ [] := by
    intro hnil
    rw [(build_eq_none_iff env pols tdBundle forTCP forDeny).mpr hnil] at h
    exact Option.noConfusion h
  rw [build_eq_some env pols tdBundle forTCP forDeny hne] at h
  injection h with hr
  subst hr
  intro e he
  rcases mem_insertAll _ _ e he with h0 | h0
  · simp at h0
  · obtain ⟨p, hp, j, g, orule, hee, ho, hpr⟩ :=
      mem_buildEntries env tdBundle forTCP forDeny pols e h0
    subst hee
    exact ⟨by simp, g, p, orule, hp, ho, hpr, rfl⟩

/-- C10 witness: the single entry of the concrete allow run carries a
present generated value. -/
theorem C10_witness :
    (("ns[ns1]-policy[p1]-rule[0]", (some 7 : Option Nat)).2 ≠ none) ∧
    ∃ g p orule, p ∈ [polA] ∧ orule ∈ p.AuthorizationPolicy.Rules ∧
      processRule envId () false false orule = some g ∧
      ("ns[ns1]-policy[p1]-rule[0]", (some 7 : Option Nat)).2 = some g :=
  C10_values_generated envId [polA] () false false ⟨rsA⟩ (by decide)
    ("ns[ns1]-policy[p1]-rule[0]", some 7) (by decide)

end AuthzBuilder
